import Mathlib

/-!
Shallow embedding of the contact-import core of `src/server.py`
(vCard parser, field disambiguator, phone normalizer, duplicate detector)
together with proofs about the spec's claims.

Modelling conventions:
* Python strings are modelled as Lean `String` / `List Char`; all string
  primitives used by the source (`strip`, `upper`, `split`, `splitlines`,
  `replace`, `startswith`, `in`, regex substitutions) are re-implemented
  below as structurally recursive functions on `List Char`, following the
  exact scanning semantics of the Python originals (left-to-right,
  non-overlapping, no rescan of replaced text).
* The embedding is ASCII-scoped: `upper`, `isalpha`, `title`, `\d` and
  `strip` are modelled on their ASCII behaviour (the vCard properties the
  claims exercise are ASCII; Python additionally handles non-ASCII
  categories there).
* Python dicts (contact records) are modelled as ordered association
  lists `List (String × String)`; dict assignment replaces in place,
  membership is key lookup, iteration order is insertion order, exactly
  as in CPython.
* A Python `set` of fingerprints is modelled as a `List String`; the only
  operation used is the emptiness test of an intersection, which only
  depends on membership.
-/

namespace VcfCore

/-- Whitespace stripped by Python `str.strip()` (ASCII part). -/
def isPySpace (c : Char) : Bool :=
  c = ' ' || c = '\t' || c = '\n' || c = '\r' || c = '\x0b' || c = '\x0c'

/-- Model of Python `str.strip()`. -/
def pyStripL (l : List Char) : List Char :=
  ((l.dropWhile isPySpace).reverse.dropWhile isPySpace).reverse

/-- ASCII uppercasing of one character (model of Python `str.upper`,
ASCII-scoped). -/
def upChar : Char → Char
  | 'a' => 'A' | 'b' => 'B' | 'c' => 'C' | 'd' => 'D' | 'e' => 'E'
  | 'f' => 'F' | 'g' => 'G' | 'h' => 'H' | 'i' => 'I' | 'j' => 'J'
  | 'k' => 'K' | 'l' => 'L' | 'm' => 'M' | 'n' => 'N' | 'o' => 'O'
  | 'p' => 'P' | 'q' => 'Q' | 'r' => 'R' | 's' => 'S' | 't' => 'T'
  | 'u' => 'U' | 'v' => 'V' | 'w' => 'W' | 'x' => 'X' | 'y' => 'Y'
  | 'z' => 'Z'
  | c => c

/-- Model of Python `str.upper()` (ASCII-scoped). -/
def pyUpperL (l : List Char) : List Char := l.map upChar

/-- Model of Python `str.split(sep)` for a one-character separator:
always returns at least one (possibly empty) token, keeps empty tokens. -/
def splitCL (sep : Char) : List Char → List (List Char)
  | [] => [[]]
  | c :: rest =>
    if c = sep then [] :: splitCL sep rest
    else
      match splitCL sep rest with
      | h :: t => (c :: h) :: t
      | [] => [[c]]

/-- Model of Python `str.split(sep, 1)` under the guarantee that the
separator occurs (the source always checks occurrence first); returns the
text before the first separator and the text after it. -/
def splitOnceL (sep : Char) : List Char → List Char × List Char
  | [] => ([], [])
  | c :: rest =>
    if c = sep then ([], rest)
    else
      let r := splitOnceL sep rest
      (c :: r.1, r.2)

/-- Model of Python `str.splitlines()` (ASCII line boundaries
`\n`, `\r`, `\r\n`; no trailing empty line). -/
def splitLinesGo (acc : List Char) : List Char → List (List Char)
  | [] => if acc = [] then [] else [acc.reverse]
  | '\r' :: '\n' :: rest => acc.reverse :: splitLinesGo [] rest
  | '\r' :: rest => acc.reverse :: splitLinesGo [] rest
  | '\n' :: rest => acc.reverse :: splitLinesGo [] rest
  | c :: rest => splitLinesGo (c :: acc) rest

def splitLinesL (l : List Char) : List (List Char) := splitLinesGo [] l

/-- Substring test, model of Python `pat in s` for strings. -/
def containsSubL (pat : List Char) : List Char → Bool
  | [] => pat.isEmpty
  | c :: rest => pat.isPrefixOf (c :: rest) || containsSubL pat rest

/-- Model of Python `str.replace(pat, rep)` for a two-character pattern
`[a, b]`: left-to-right, non-overlapping, replaced text is not rescanned. -/
def replace2 (a b : Char) (rep : List Char) : List Char → List Char
  | x :: y :: rest =>
    if x = a ∧ y = b then rep ++ replace2 a b rep rest
    else x :: replace2 a b rep (y :: rest)
  | l => l

/-- Join a list of strings with a separator, model of Python
`sep.join(parts)`. -/
def intercalateL (sep : List Char) : List (List Char) → List Char
  | [] => []
  | [x] => x
  | x :: xs => x ++ sep ++ intercalateL sep xs

/-! ## Phone normalizer (`format_phone`, src/server.py lines 184-217) -/

/-- The digit-grouping loop of `format_phone`'s international branch
(src/server.py lines 209-213): a space is emitted before the character at
index `i` whenever `i > 0 and i % 4 == 0`. -/
def spacedGo : Nat → List Char → List Char
  | _, [] => []
  | i, c :: rest =>
    if 0 < i ∧ i % 4 = 0 then ' ' :: c :: spacedGo (i + 1) rest
    else c :: spacedGo (i + 1) rest

/-- Model of `format_phone` (src/server.py lines 184-217).
`re.sub(r"[^\d]", "", raw)` is modelled by filtering ASCII digits. -/
def formatPhoneL (raw : List Char) : List Char :=
  let has_plus := ['+'].isPrefixOf (pyStripL raw)
  let digits := raw.filter Char.isDigit
  if digits = [] then raw
  else if digits.length = 10 then
    "+1 (".data ++ digits.take 3 ++ ") ".data ++ (digits.drop 3).take 3
      ++ "-".data ++ digits.drop 6
  else if digits.length = 11 ∧ digits.head? = some '1' then
    "+1 (".data ++ (digits.drop 1).take 3 ++ ") ".data ++ (digits.drop 4).take 3
      ++ "-".data ++ digits.drop 7
  else if has_plus = true ∨ 11 < digits.length then
    '+' :: spacedGo 0 digits
  else pyStripL raw

def format_phone (raw : String) : String := ⟨formatPhoneL raw.data⟩

/-- Digits-only fingerprint of a string (`re.sub(r"[^\d]", "", v)`). -/
def digitsOf (s : String) : String := ⟨s.data.filter Char.isDigit⟩

/-- Python-slice helper used to state claims: `s[a:b]`. -/
def strSlice (s : String) (a b : Nat) : String := ⟨(s.data.drop a).take (b - a)⟩

/-- Trimmed-input-starts-with-plus test of `format_phone`
(src/server.py line 193). -/
def hasPlus (raw : String) : Bool := ['+'].isPrefixOf (pyStripL raw.data)

/-- Claim-side description of the international grouping: the digits cut
into runs of four from index 0. -/
def chunks4 : List Char → List (List Char)
  | [] => []
  | [a] => [[a]]
  | [a, b] => [[a, b]]
  | [a, b, c] => [[a, b, c]]
  | a :: b :: c :: d :: rest => [a, b, c, d] :: chunks4 rest

/-- Claim-side description of the international grouping: runs of four
digits joined by single spaces. -/
def groupedBy4 (d : String) : String :=
  ⟨intercalateL [' '] (chunks4 d.data)⟩

/-! ## Line unfolder (src/server.py lines 283-284) -/

/-- Continuation whitespace of a vCard fold: a single space or tab. -/
def isFoldWs (c : Char) : Prop := c = ' ' ∨ c = '\t'

instance (c : Char) : Decidable (isFoldWs c) := by
  unfold isFoldWs; infer_instance

/-- First unfolding pass, model of
`re.sub(r"\r\n[ \t]", "", text)` (src/server.py line 283): scan left to
right, deleting each CRLF together with the single following space/tab;
on a failed match the scanner advances one character.  A lone `\r` (or a
`\r\n` not followed by whitespace) cannot start a match one position
later, so those characters are emitted directly. -/
def pass1 : List Char → List Char
  | '\r' :: '\n' :: c3 :: rest3 =>
    if isFoldWs c3 then pass1 rest3 else '\r' :: '\n' :: pass1 (c3 :: rest3)
  | c :: rest => c :: pass1 rest
  | [] => []

/-- Second unfolding pass, model of
`re.sub(r"\r?\n[ \t]", "", text)` (src/server.py line 284): scan left to
right, deleting each CRLF-or-LF together with the single following
space/tab.  In the `\r\n` case with a non-whitespace follower neither the
`\r` position nor the `\n` position matches, so both are emitted. -/
def pass2 : List Char → List Char
  | '\r' :: '\n' :: c3 :: rest3 =>
    if isFoldWs c3 then pass2 rest3 else '\r' :: '\n' :: pass2 (c3 :: rest3)
  | '\n' :: c2 :: rest2 =>
    if isFoldWs c2 then pass2 rest2 else '\n' :: pass2 (c2 :: rest2)
  | c :: rest => c :: pass2 rest
  | [] => []

/-- The unfolder as implemented: the two regex passes in sequence. -/
def vcfUnfoldL (l : List Char) : List Char := pass2 (pass1 l)

def vcfUnfold (s : String) : String := ⟨vcfUnfoldL s.data⟩

/-- Modelled from the claim's words (C9), for comparison with the code:
one single left-to-right pass over the raw text, removing every CRLF or
LF that is immediately followed by a single space or tab together with
that whitespace character. -/
def claimSinglePassUnfold (s : String) : String := ⟨pass2 s.data⟩

/-! ## Quoted-printable decoding and value unescaping
(src/server.py lines 312-320) -/

def isHexDigit (c : Char) : Bool :=
  ('0' ≤ c && c ≤ '9') || ('A' ≤ c && c ≤ 'F') || ('a' ≤ c && c ≤ 'f')

def hexVal (c : Char) : Nat :=
  if '0' ≤ c && c ≤ '9' then c.toNat - '0'.toNat
  else if 'A' ≤ c && c ≤ 'F' then c.toNat - 'A'.toNat + 10
  else c.toNat - 'a'.toNat + 10

/-- Model of `re.sub(r"=([0-9A-Fa-f]{2})", lambda m: chr(int(m.group(1), 16)), value)`
(src/server.py lines 313-317): each `=XX` escape becomes the character
with code point `XX`; a lone `=` is kept and scanning continues after it. -/
def qpDecodeL : List Char → List Char
  | '=' :: c1 :: c2 :: rest2 =>
    if isHexDigit c1 ∧ isHexDigit c2 then
      Char.ofNat (16 * hexVal c1 + hexVal c2) :: qpDecodeL rest2
    else '=' :: qpDecodeL (c1 :: c2 :: rest2)
  | c :: rest => c :: qpDecodeL rest
  | [] => []

/-- Model of
`value.replace("\\n", " ").replace("\\,", ",").replace("\\;", ";")`
(src/server.py line 320), the three replaces applied in source order. -/
def unescapeL (v : List Char) : List Char :=
  replace2 '\\' ';' [';'] (replace2 '\\' ',' [','] (replace2 '\\' 'n' [' '] v))

/-- The quoted-printable marker looked for in the property part. -/
def qpMarker : List Char := "ENCODING=QUOTED-PRINTABLE".data

/-- Value processing of one property line (src/server.py lines 311-320):
quoted-printable decoding when the upper-cased property part contains the
marker, then escape unescaping, then strip. -/
def processValueL (propPart v : List Char) : List Char :=
  let v1 := if containsSubL qpMarker (pyUpperL propPart) then qpDecodeL v else v
  pyStripL (unescapeL v1)

/-- Claim-side trigger of C8: some PARAMETER (a `;`-token after the
property name), case-insensitively, contains
`ENCODING=QUOTED-PRINTABLE`. -/
def paramsContainMarker (propPart : List Char) : Bool :=
  ((splitCL ';' propPart).drop 1).any (fun p => containsSubL qpMarker (pyUpperL p))

/-! ## Type-label extraction (`_extract_type`, src/server.py lines 232-245) -/

/-- The fixed label table `_TYPE_LABELS` (src/server.py lines 223-229).
`PREF` maps to Python `None`, which behaves like a missing key under the
`if label:` test, so it is `none` here. -/
def tableLabel (p : List Char) : Option String :=
  if p = "CELL".data then some "Cell"
  else if p = "MOBILE".data then some "Cell"
  else if p = "HOME".data then some "Home"
  else if p = "WORK".data then some "Work"
  else if p = "MAIN".data then some "Main"
  else if p = "FAX".data then some "Fax"
  else if p = "IPHONE".data then some "iPhone"
  else if p = "OTHER".data then some "Other"
  else none

/-- Model of `p.replace("TYPE=", "")` on an upper-cased token: removes
every occurrence of the substring `TYPE=`, left to right. -/
def removeTypeEq : List Char → List Char
  | 'T' :: 'Y' :: 'P' :: 'E' :: '=' :: rest => removeTypeEq rest
  | c :: rest => c :: removeTypeEq rest
  | [] => []

/-- The noise words skipped by the best-effort branch
(src/server.py line 243). -/
def noiseWords : List (List Char) :=
  ["VOICE".data, "INTERNET".data, "PREF".data, "CHARSET=UTF-8".data]

/-- Model of Python `str.isalpha()` (ASCII-scoped). -/
def pyIsAlpha (p : List Char) : Bool := !p.isEmpty && p.all Char.isAlpha

/-- Model of Python `str.title()` (ASCII-scoped): uppercase a character
after a non-alphabetic one, lowercase otherwise. -/
def titleGo (prevAlpha : Bool) : List Char → List Char
  | [] => []
  | c :: rest =>
    (if prevAlpha then c.toLower else upChar c) :: titleGo c.isAlpha rest

def pyTitleL (p : List Char) : List Char := titleGo false p

/-- Per-token processing of `_extract_type`'s loop body
(src/server.py lines 237-244); tokens are already upper-cased. -/
def extractTypeGo : List (List Char) → Option String
  | [] => none
  | t :: ts =>
    let p := pyStripL (removeTypeEq t)
    match tableLabel p with
    | some l => some l
    | none =>
      if pyIsAlpha p = true ∧ p ∉ noiseWords then some ⟨pyTitleL p⟩
      else extractTypeGo ts

/-- Model of `_extract_type` (src/server.py lines 232-245):
`prop_part.upper().split(";")[1:]` scanned left to right. -/
def extractTypeL (propPart : List Char) : Option String :=
  extractTypeGo ((splitCL ';' (pyUpperL propPart)).drop 1)

def extract_type (propPart : String) : Option String := extractTypeL propPart.data

/-- Modelled from claim C7's words, for comparison with the code: split
first, case-fold each token, strip only a LEADING `TYPE=` prefix (no
whitespace trimming), then table lookup / best-effort title-casing. -/
def claimC7LabelGo : List (List Char) → Option String
  | [] => none
  | t :: ts =>
    let tu := pyUpperL t
    let p := if "TYPE=".data.isPrefixOf tu then tu.drop 5 else tu
    match tableLabel p with
    | some l => some l
    | none =>
      if pyIsAlpha p = true ∧ p ∉ noiseWords then some ⟨pyTitleL p⟩
      else claimC7LabelGo ts

def claimC7Label (propPart : String) : Option String :=
  claimC7LabelGo ((splitCL ';' propPart.data).drop 1)

/-- Modelled from the amended claim C7's words: split the property part
on `;`, drop the name, case-fold each token to upper, remove every
occurrence of the substring `TYPE=` and trim surrounding whitespace,
then apply the table / best-effort rule, first hit wins. -/
def claimC7AmendedLabelGo : List (List Char) → Option String
  | [] => none
  | t :: ts =>
    let p := pyStripL (removeTypeEq (pyUpperL t))
    match tableLabel p with
    | some l => some l
    | none =>
      if pyIsAlpha p = true ∧ p ∉ noiseWords then some ⟨pyTitleL p⟩
      else claimC7AmendedLabelGo ts

def claimC7AmendedLabel (propPart : String) : Option String :=
  claimC7AmendedLabelGo ((splitCL ';' propPart.data).drop 1)

/-! ## Contact records and the field disambiguator
(`_add_field`, src/server.py lines 248-269) -/

/-- A contact under construction: a Python dict modelled as an ordered
association list with unique keys. -/
abbrev Contact := List (String × String)

/-- First-match lookup (Python dict indexing / `.get`). -/
def lookupKey : Contact → String → Option String
  | [], _ => none
  | (k', v') :: rest, k => if k' = k then some v' else lookupKey rest k

/-- Python `key in contact`. -/
def hasKey (c : Contact) (k : String) : Bool := (lookupKey c k).isSome

/-- Python dict assignment `contact[k] = v`: replace in place if the key
exists, else append. -/
def setKey : Contact → String → String → Contact
  | [], k, v => [(k, v)]
  | (k', v') :: rest, k, v =>
    if k' = k then (k', v) :: rest else (k', v') :: setKey rest k v

/-- The suffix built from a type label (src/server.py line 256);
Python's truthiness test makes an empty label behave like no label. -/
def labelSuffix : Option String → String
  | some t => if t = "" then "" else " (" ++ t ++ ")"
  | none => ""

/-- The numbered candidate keys of `_add_field`'s collision loop
(src/server.py line 266); the two Python format strings coincide when the
suffix is empty. -/
def numberedKey (base suffix : String) (n : Nat) : String :=
  base ++ " " ++ toString n ++ suffix

/-- The collision loop `for n in range(2, 20)` (src/server.py
lines 265-269): try numbered keys in order, silently drop on
exhaustion. -/
def addNumbered (c : Contact) (base suffix v : String) : List Nat → Contact
  | [] => c
  | n :: ns =>
    let key := numberedKey base suffix n
    if hasKey c key then addNumbered c base suffix v ns else c ++ [(key, v)]

/-- Model of `_add_field` (src/server.py lines 248-269). -/
def addField (c : Contact) (base v : String) (lbl : Option String) : Contact :=
  let suffix := labelSuffix lbl
  let key := base ++ suffix
  if hasKey c key then addNumbered c base suffix v (List.range' 2 18)
  else c ++ [(key, v)]

/-! ## Property dispatch and the parse loop
(`parse_vcf`, src/server.py lines 272-355) -/

/-- Python `label or "Social"`: `None` and the empty string both fall
back to the default. -/
def pyOrStr (o : Option String) (d : String) : String :=
  match o with
  | some t => if t = "" then d else t
  | none => d

/-- The `X-USER=` username scan of the `X-SOCIALPROFILE` branch
(src/server.py lines 347-350): the loop keeps the last matching
parameter's value. -/
def socialUsernameL (propPart : List Char) : List Char :=
  (splitCL ';' propPart).foldl
    (fun u p =>
      if "X-USER=".data.isPrefixOf (pyUpperL p) then (splitOnceL '=' p).2 else u)
    []

/-- The display value stored for a social profile
(src/server.py line 351): the extracted username if non-empty, else the
raw value. -/
def socialDisplay (propPart value : List Char) : List Char :=
  let u := socialUsernameL propPart
  if u ≠ [] then u else value

/-- The `X-SOCIALPROFILE` branch (src/server.py lines 344-353): a plain
dict assignment under the type label (or `"Social"`). -/
def handleSocial (cur : Contact) (propPart value : List Char) : Contact :=
  setKey cur (pyOrStr (extractTypeL propPart) "Social") ⟨socialDisplay propPart value⟩

/-- The property name of a (stripped, colon-containing) line:
`line.split(":", 1)[0].split(";")[0].upper()` (src/server.py
lines 308-309). -/
def propNameOfLine (line : List Char) : String :=
  ⟨pyUpperL (((splitCL ';' (splitOnceL ':' line).1).headD []))⟩

/-- Processing of one candidate property line inside an open block
(src/server.py lines 305-353): skip lines without a colon, decode and
unescape the value, skip empty values, then dispatch on the property
name. -/
def handleLine (cur : Contact) (line : List Char) : Contact :=
  if ¬ line.contains ':' then cur
  else
    let pv := splitOnceL ':' line
    let propPart := pv.1
    let propName := propNameOfLine line
    let value := processValueL propPart pv.2
    if value = [] then cur
    else
      let lbl := extractTypeL propPart
      if propName = "FN" then setKey cur "Name" ⟨value⟩
      else if propName = "TEL" then
        addField cur "Phone" (format_phone ⟨value⟩) lbl
      else if propName = "EMAIL" then addField cur "Email" ⟨value⟩ lbl
      else if propName = "ORG" then
        setKey cur "Company"
          ⟨pyStripL (value.map fun c => if c = ';' then ' ' else c)⟩
      else if propName = "TITLE" then setKey cur "Title" ⟨value⟩
      else if propName = "NOTE" then setKey cur "Notes" ⟨value⟩
      else if propName = "ADR" then
        let parts := ((splitCL ';' value).map pyStripL).filter (· ≠ [])
        if parts ≠ [] then
          addField cur "Address" ⟨intercalateL ", ".data parts⟩ lbl
        else cur
      else if propName = "URL" then addField cur "Website" ⟨value⟩ lbl
      else if propName = "X-SOCIALPROFILE" then handleSocial cur propPart value
      else cur

/-- The `Name` value of a record under Python truthiness
(`current.get("Name")`). -/
def nameVal (c : Contact) : String := (lookupKey c "Name").getD ""

/-- Parser state: finished records (in order) and the record under
construction (`None` outside a block). -/
abbrev ParseState := List Contact × Option Contact

/-- One iteration of `parse_vcf`'s line loop (src/server.py
lines 289-353). -/
def stepLine (st : ParseState) (rawLine : List Char) : ParseState :=
  let line := pyStripL rawLine
  if line = [] then st
  else if pyUpperL line = "BEGIN:VCARD".data then (st.1, some [])
  else if pyUpperL line = "END:VCARD".data then
    match st.2 with
    | some cur =>
      if cur ≠ [] ∧ nameVal cur ≠ "" then (st.1 ++ [cur], none) else (st.1, none)
    | none => (st.1, none)
  else
    match st.2 with
    | none => st
    | some cur => (st.1, some (handleLine cur line))

/-- Model of `parse_vcf` (src/server.py lines 272-355). -/
def parse_vcf (text : String) : List Contact :=
  ((splitLinesL (vcfUnfoldL text.data)).foldl stepLine ([], none)).1

/-! ## Duplicate detector (src/server.py lines 374-385) -/

/-- Model of Python `str.startswith`. -/
def pyStartsWith (s pre : String) : Bool := pre.data.isPrefixOf s.data

/-- The phone fingerprints collected from one parsed contact
(src/server.py lines 378-383): digits of every non-empty value whose key
starts with `"Phone"`, skipping values with no digits. -/
def contactPhoneFingerprints (c : Contact) : List String :=
  c.foldr
    (fun kv acc =>
      if pyStartsWith kv.1 "Phone" = true ∧ kv.2 ≠ "" ∧ digitsOf kv.2 ≠ "" then
        digitsOf kv.2 :: acc
      else acc)
    []

/-- The `_duplicate` flag (src/server.py line 385): true iff the
contact's fingerprints intersect the existing set. -/
def duplicateFlag (c : Contact) (existing : List String) : Bool :=
  (contactPhoneFingerprints c).any (fun d => existing.contains d)

/-! ## General lemmas about the embedded operations -/

theorem strContains_iff (l : List String) (a : String) :
    l.contains a = true ↔ a ∈ l := by
  induction l with
  | nil => simp
  | cons x xs ih => simp [List.contains, List.elem_cons, ih]

theorem digitsOf_eq_empty_of_empty {s : String} (h : s = "") : digitsOf s = "" := by
  subst h; rfl

theorem length_digitsOf (s : String) :
    (digitsOf s).length = (s.data.filter Char.isDigit).length := by
  simp [digitsOf, String.length]

/-! ## Claim C2: the duplicate flag -/

/-- Claim C2: for every parsed contact, the `_duplicate` flag is true if
and only if at least one fingerprint obtained by stripping all non-digit
characters from a field value whose key starts with `"Phone"` is a member
of the caller-supplied set of existing phone fingerprints.  The
caller-supplied set is produced by `get_existing_contact_phones`
(src/db.py lines 294-317), which only collects non-empty digit strings;
that typing of the input is the hypothesis. -/
theorem claim_C2_duplicate_iff (c : Contact) (existing : List String)
    (hne : ∀ s ∈ existing, s ≠ "") :
    duplicateFlag c existing = true ↔
      ∃ kv ∈ c, pyStartsWith kv.1 "Phone" = true ∧ digitsOf kv.2 ∈ existing := by
  induction c with
  | nil => simp [duplicateFlag, contactPhoneFingerprints]
  | cons kv rest ih =>
    by_cases hc : pyStartsWith kv.1 "Phone" = true ∧ kv.2 ≠ "" ∧ digitsOf kv.2 ≠ ""
    · have hstep : duplicateFlag (kv :: rest) existing =
          (existing.contains (digitsOf kv.2) || duplicateFlag rest existing) := by
        simp only [duplicateFlag, contactPhoneFingerprints, List.foldr_cons, if_pos hc,
          List.any_cons]
      rw [hstep]
      simp only [Bool.or_eq_true, strContains_iff, ih, List.mem_cons]
      constructor
      · rintro (hmem | ⟨kv', hkv', hp, hm⟩)
        · exact ⟨kv, Or.inl rfl, hc.1, hmem⟩
        · exact ⟨kv', Or.inr hkv', hp, hm⟩
      · rintro ⟨kv', hkv' | hkv', hp, hm⟩
        · subst hkv'; exact Or.inl hm
        · exact Or.inr ⟨kv', hkv', hp, hm⟩
    · have hstep : duplicateFlag (kv :: rest) existing = duplicateFlag rest existing := by
        simp only [duplicateFlag, contactPhoneFingerprints, List.foldr_cons, if_neg hc]
      rw [hstep, ih]
      simp only [List.mem_cons]
      constructor
      · rintro ⟨kv', hkv', hp, hm⟩; exact ⟨kv', Or.inr hkv', hp, hm⟩
      · rintro ⟨kv', hkv' | hkv', hp, hm⟩
        · exfalso
          have hd : digitsOf kv'.2 ≠ "" := hne _ hm
          have hv : kv'.2 ≠ "" := fun he => hd (digitsOf_eq_empty_of_empty he)
          exact hc (by rw [← hkv']; exact ⟨hp, hv, hd⟩)
        · exact ⟨kv', hkv', hp, hm⟩

/-- Witness for C2: the spec's duplicate example.  The normalized phone
`"+1 (555) 123-4567"` has fingerprint `"15551234567"`, which is in the
existing set, so the flag is true. -/
theorem claim_C2_duplicate_iff_witness :
    (∀ s ∈ ["15551234567"], s ≠ "") ∧
    (duplicateFlag [("Name", "A"), ("Phone", "+1 (555) 123-4567")] ["15551234567"] = true ↔
      ∃ kv ∈ [("Name", "A"), ("Phone", "+1 (555) 123-4567")],
        pyStartsWith kv.1 "Phone" = true ∧ digitsOf kv.2 ∈ ["15551234567"]) :=
  ⟨by decide,
   claim_C2_duplicate_iff [("Name", "A"), ("Phone", "+1 (555) 123-4567")]
     ["15551234567"] (by decide)⟩

/-! ## Claim C4: US phone formatting -/

/-- Claim C4: a digits-only form of exactly 10 digits formats as
`+1 (DDD) DDD-DDDD` from slices [0:3], [3:6], [6:10]; exactly 11 digits
beginning with 1 formats from slices [1:4], [4:7], [7:11]; and
`"5551234567"` normalizes to `"+1 (555) 123-4567"`. -/
theorem claim_C4_us_phone_format :
    (∀ raw : String, (digitsOf raw).length = 10 →
      format_phone raw =
        "+1 (" ++ strSlice (digitsOf raw) 0 3 ++ ") " ++ strSlice (digitsOf raw) 3 6
          ++ "-" ++ strSlice (digitsOf raw) 6 10) ∧
    (∀ raw : String, (digitsOf raw).length = 11 →
      (digitsOf raw).data.head? = some '1' →
      format_phone raw =
        "+1 (" ++ strSlice (digitsOf raw) 1 4 ++ ") " ++ strSlice (digitsOf raw) 4 7
          ++ "-" ++ strSlice (digitsOf raw) 7 11) ∧
    format_phone "5551234567" = "+1 (555) 123-4567" := by
  refine ⟨?_, ?_, by decide⟩
  · intro raw h
    rw [length_digitsOf] at h
    have hne : raw.data.filter Char.isDigit ≠ [] := by
      intro he; rw [he] at h; simp at h
    apply String.ext
    simp only [format_phone, formatPhoneL, strSlice, digitsOf, String.data_append,
      if_neg hne, if_pos h]
    have hdrop : (raw.data.filter Char.isDigit).drop 6 =
        ((raw.data.filter Char.isDigit).drop 6).take (10 - 6) := by
      rw [List.take_of_length_le]
      simp [h]
    simp [hdrop.symm, List.drop_zero]
  · intro raw h h1
    rw [length_digitsOf] at h
    have h1' : (raw.data.filter Char.isDigit).head? = some '1' := h1
    have hne : raw.data.filter Char.isDigit ≠ [] := by
      intro he; rw [he] at h; simp at h
    have h10 : ¬ (raw.data.filter Char.isDigit).length = 10 := by omega
    apply String.ext
    simp only [format_phone, formatPhoneL, strSlice, digitsOf, String.data_append,
      if_neg hne, if_neg h10, if_pos (And.intro h h1')]
    have hdrop : (raw.data.filter Char.isDigit).drop 7 =
        ((raw.data.filter Char.isDigit).drop 7).take (11 - 7) := by
      rw [List.take_of_length_le]
      simp [h]
    simp [hdrop.symm]

/-- Witness for C4: the 10-digit branch applied at `"5551234567"`. -/
theorem claim_C4_us_phone_format_witness :
    (digitsOf "5551234567").length = 10 ∧
    format_phone "5551234567" =
      "+1 (" ++ strSlice (digitsOf "5551234567") 0 3 ++ ") "
        ++ strSlice (digitsOf "5551234567") 3 6 ++ "-"
        ++ strSlice (digitsOf "5551234567") 6 10 :=
  ⟨by decide, claim_C4_us_phone_format.1 "5551234567" (by decide)⟩

/-! ## Claim C3: collision auto-numbering never overwrites -/

theorem lookupKey_append_of_isSome (c : Contact) (l : Contact) (k : String)
    (h : (lookupKey c k).isSome = true) :
    lookupKey (c ++ l) k = lookupKey c k := by
  induction c with
  | nil => simp [lookupKey] at h
  | cons kv rest ih =>
    by_cases he : kv.1 = k
    · simp [lookupKey, he]
    · simp only [lookupKey, if_neg he] at h ⊢
      exact ih h

theorem addNumbered_shape (c : Contact) (base suffix v : String) (ns : List Nat) :
    addNumbered c base suffix v ns = c ∨
      ∃ key, hasKey c key = false ∧ (∃ n ∈ ns, key = numberedKey base suffix n) ∧
        addNumbered c base suffix v ns = c ++ [(key, v)] := by
  induction ns with
  | nil => exact Or.inl rfl
  | cons n ns ih =>
    by_cases h : hasKey c (numberedKey base suffix n) = true
    · have hstep : addNumbered c base suffix v (n :: ns) = addNumbered c base suffix v ns := by
        simp [addNumbered, h]
      rw [hstep]
      rcases ih with h1 | ⟨key, hk, ⟨m, hm, hkey⟩, heq⟩
      · exact Or.inl h1
      · exact Or.inr ⟨key, hk, ⟨m, List.mem_cons_of_mem _ hm, hkey⟩, heq⟩
    · have h' : hasKey c (numberedKey base suffix n) = false := by
        simpa using h
      have hstep : addNumbered c base suffix v (n :: ns)
          = c ++ [(numberedKey base suffix n, v)] := by
        simp [addNumbered, h']
      exact Or.inr ⟨numberedKey base suffix n, h',
        ⟨n, List.mem_cons_self _ _, rfl⟩, hstep⟩

theorem addField_shape (c : Contact) (base v : String) (lbl : Option String) :
    addField c base v lbl = c ∨
      ∃ key, hasKey c key = false ∧
        (key = base ++ labelSuffix lbl ∨
          ∃ n ∈ List.range' 2 18, key = numberedKey base (labelSuffix lbl) n) ∧
        addField c base v lbl = c ++ [(key, v)] := by
  by_cases h : hasKey c (base ++ labelSuffix lbl) = true
  · have hstep : addField c base v lbl
        = addNumbered c base (labelSuffix lbl) v (List.range' 2 18) := by
      simp [addField, h]
    rw [hstep]
    rcases addNumbered_shape c base (labelSuffix lbl) v (List.range' 2 18) with
      h1 | ⟨key, hk, hkey, heq⟩
    · exact Or.inl h1
    · exact Or.inr ⟨key, hk, Or.inr hkey, heq⟩
  · have h' : hasKey c (base ++ labelSuffix lbl) = false := by simpa using h
    have hstep : addField c base v lbl = c ++ [(base ++ labelSuffix lbl, v)] := by
      simp [addField, h']
    exact Or.inr ⟨base ++ labelSuffix lbl, h', Or.inl rfl, hstep⟩

theorem lookupKey_addField_of_hasKey (c : Contact) (base v : String)
    (lbl : Option String) (k : String) (h : hasKey c k = true) :
    lookupKey (addField c base v lbl) k = lookupKey c k := by
  rcases addField_shape c base v lbl with h1 | ⟨key, _, _, heq⟩
  · rw [h1]
  · rw [heq]
    exact lookupKey_append_of_isSome c _ k (by simpa [hasKey] using h)

/-- Claim C3: a base-keyed insertion inserts under the candidate key when
absent; otherwise it tries the numbered keys `base n (label)` for
`n = 2, …, 19` in order and on exhaustion drops the property; no existing
binding is ever overwritten; and for two `TEL` properties with the same
type parameter, the second lands under `"Phone 2 (<Type>)"` while the
first keeps its value. -/
theorem claim_C3_addfield_no_overwrite :
    (∀ (c : Contact) (base v : String) (lbl : Option String),
      hasKey c (base ++ labelSuffix lbl) = false →
      addField c base v lbl = c ++ [(base ++ labelSuffix lbl, v)]) ∧
    (∀ (c : Contact) (base v : String) (lbl : Option String) (k : String),
      hasKey c k = true →
      lookupKey (addField c base v lbl) k = lookupKey c k) ∧
    (∀ (c : Contact) (base v : String) (lbl : Option String),
      addField c base v lbl = c ∨
        ∃ key, hasKey c key = false ∧
          (key = base ++ labelSuffix lbl ∨
            ∃ n ∈ List.range' 2 18, key = numberedKey base (labelSuffix lbl) n) ∧
          addField c base v lbl = c ++ [(key, v)]) ∧
    parse_vcf "BEGIN:VCARD\nFN:Al\nTEL;TYPE=CELL:5551234567\nTEL;TYPE=CELL:5559876543\nEND:VCARD"
      = [[("Name", "Al"), ("Phone (Cell)", "+1 (555) 123-4567"),
          ("Phone 2 (Cell)", "+1 (555) 987-6543")]] := by
  refine ⟨?_, lookupKey_addField_of_hasKey, addField_shape, by decide⟩
  intro c base v lbl h
  simp [addField, h]

/-- Witness for C3: inserting `Phone (Cell)` into a record that already
has it preserves the old binding and lands on `Phone 2 (Cell)`. -/
theorem claim_C3_addfield_no_overwrite_witness :
    hasKey [("Phone (Cell)", "111")] "Phone (Cell)" = true ∧
    lookupKey (addField [("Phone (Cell)", "111")] "Phone" "222" (some "Cell"))
      "Phone (Cell)" = lookupKey [("Phone (Cell)", "111")] "Phone (Cell)" :=
  ⟨by decide,
   claim_C3_addfield_no_overwrite.2.1 [("Phone (Cell)", "111")] "Phone" "222"
     (some "Cell") "Phone (Cell)" (by decide)⟩

/-! ## Claim C5: international phone grouping -/

theorem spacedGo_add4 (l : List Char) :
    ∀ i : Nat, 0 < i → spacedGo (i + 4) l = spacedGo i l := by
  induction l with
  | nil => intro i _; rfl
  | cons c rest ih =>
    intro i hi
    have hmod : (i + 4) % 4 = i % 4 := Nat.add_mod_right i 4
    by_cases h : i % 4 = 0
    · have h1 : 0 < i + 4 ∧ (i + 4) % 4 = 0 := ⟨by omega, by omega⟩
      have h2 : 0 < i ∧ i % 4 = 0 := ⟨hi, h⟩
      simp only [spacedGo, if_pos h1, if_pos h2]
      rw [show i + 4 + 1 = i + 1 + 4 by omega, ih (i + 1) (by omega)]
    · have h1 : ¬(0 < i + 4 ∧ (i + 4) % 4 = 0) := by omega
      have h2 : ¬(0 < i ∧ i % 4 = 0) := by omega
      simp only [spacedGo, if_neg h1, if_neg h2]
      rw [show i + 4 + 1 = i + 1 + 4 by omega, ih (i + 1) (by omega)]

theorem chunks4_ne_nil (l : List Char) (h : l ≠ []) : chunks4 l ≠ [] := by
  match l with
  | [] => exact absurd rfl h
  | [a] => simp [chunks4]
  | [a, b] => simp [chunks4]
  | [a, b, c] => simp [chunks4]
  | a :: b :: c :: d :: rest => simp [chunks4]

theorem spacedGo_cons_pos (i : Nat) (c : Char) (r : List Char)
    (h : 0 < i ∧ i % 4 = 0) :
    spacedGo i (c :: r) = ' ' :: c :: spacedGo (i + 1) r := by
  simp [spacedGo, h]

theorem spacedGo_cons_neg (i : Nat) (c : Char) (r : List Char)
    (h : ¬(0 < i ∧ i % 4 = 0)) :
    spacedGo i (c :: r) = c :: spacedGo (i + 1) r := by
  simp [spacedGo, h]

theorem spacedGo_zero_eq_chunks (l : List Char) :
    spacedGo 0 l = intercalateL [' '] (chunks4 l) := by
  have H : ∀ (n : Nat) (l : List Char), l.length ≤ n →
      spacedGo 0 l = intercalateL [' '] (chunks4 l) := by
    intro n
    induction n with
    | zero =>
      intro l hl
      have : l = [] := List.eq_nil_of_length_eq_zero (Nat.le_zero.mp hl)
      subst this; rfl
    | succ n ih =>
      intro l hl
      match l with
      | [] => rfl
      | [a] => simp [spacedGo, chunks4, intercalateL]
      | [a, b] => simp [spacedGo, chunks4, intercalateL]
      | [a, b, c] => simp [spacedGo, chunks4, intercalateL]
      | [a, b, c, d] => simp [spacedGo, chunks4, intercalateL]
      | a :: b :: c :: d :: e :: rest =>
        have hlen : (e :: rest).length ≤ n := by
          simp only [List.length_cons] at hl ⊢; omega
        have ih' := ih (e :: rest) hlen
        rcases hck : chunks4 (e :: rest) with _ | ⟨g, gs⟩
        · exact absurd hck (chunks4_ne_nil _ (by simp))
        · rw [hck] at ih'
          rw [spacedGo_cons_neg _ _ _ (by omega), spacedGo_cons_neg _ _ _ (by omega),
            spacedGo_cons_neg _ _ _ (by omega), spacedGo_cons_neg _ _ _ (by omega),
            spacedGo_cons_pos _ _ _ (by omega)]
          rw [show (0 : Nat) + 1 + 1 + 1 + 1 + 1 = 1 + 4 by norm_num,
            spacedGo_add4 rest 1 (by omega)]
          rw [spacedGo_cons_neg _ _ _ (by omega)] at ih'
          norm_num at ih'
          rw [show chunks4 (a :: b :: c :: d :: e :: rest)
              = [a, b, c, d] :: chunks4 (e :: rest) from rfl, hck]
          simp only [intercalateL]
          rw [← ih']
          simp
  exact H l.length l (le_refl _)

theorem filter_spacedGo (l : List Char) (hd : ∀ c ∈ l, Char.isDigit c = true) :
    ∀ i : Nat, (spacedGo i l).filter Char.isDigit = l := by
  induction l with
  | nil => intro i; rfl
  | cons c rest ih =>
    intro i
    have hc : Char.isDigit c = true := hd c (List.mem_cons_self _ _)
    have hrest : ∀ x ∈ rest, Char.isDigit x = true :=
      fun x hx => hd x (List.mem_cons_of_mem _ hx)
    by_cases h : 0 < i ∧ i % 4 = 0
    · simp [spacedGo, if_pos h, List.filter_cons, hc, ih hrest]
    · simp [spacedGo, if_neg h, List.filter_cons, hc, ih hrest]

/-- Counterexample to C5 as stated: the input `"+abc"` matches neither US
case and its trimmed form starts with `+`, so the claim prescribes the
output `"+"` followed by the (empty) grouped digits, i.e. `"+"`;
the code returns the input `"+abc"` unchanged because the digits-only
form is empty (src/server.py lines 196-197 run before the international
branch). -/
theorem claim_C5_counterexample :
    hasPlus "+abc" = true ∧
    (digitsOf "+abc").length ≠ 10 ∧
    ¬((digitsOf "+abc").length = 11 ∧ (digitsOf "+abc").data.head? = some '1') ∧
    format_phone "+abc" = "+abc" ∧
    format_phone "+abc" ≠ "+" ++ groupedBy4 (digitsOf "+abc") := by
  refine ⟨by decide, by decide, by decide, by decide, by decide⟩

/-- Amended claim C5: for every input with at least one digit that
matches neither US case, if the trimmed input starts with `+` or the
digits-only form has more than 11 digits, the output is `+` followed by
the digits in runs of 4 from index 0 joined by single spaces (equally: a
space before every digit whose index is a positive multiple of 4), and
every original digit is preserved in order. -/
theorem claim_C5_intl_phone_format (raw : String)
    (hne : digitsOf raw ≠ "")
    (h10 : (digitsOf raw).length ≠ 10)
    (h11 : ¬((digitsOf raw).length = 11 ∧ (digitsOf raw).data.head? = some '1'))
    (hintl : hasPlus raw = true ∨ 11 < (digitsOf raw).length) :
    format_phone raw = "+" ++ groupedBy4 (digitsOf raw) ∧
    digitsOf (format_phone raw) = digitsOf raw := by
  have hne' : raw.data.filter Char.isDigit ≠ [] := by
    intro he
    exact hne (by simp [digitsOf, he])
  have h10' : ¬(raw.data.filter Char.isDigit).length = 10 := by
    rwa [length_digitsOf] at h10
  have h11' : ¬((raw.data.filter Char.isDigit).length = 11 ∧
      (raw.data.filter Char.isDigit).head? = some '1') := by
    rwa [length_digitsOf] at h11
  have hintl' : (['+'].isPrefixOf (pyStripL raw.data) = true ∨
      11 < (raw.data.filter Char.isDigit).length) := by
    rcases hintl with h | h
    · exact Or.inl h
    · exact Or.inr (by rwa [length_digitsOf] at h)
  have hstep : format_phone raw = ⟨'+' :: spacedGo 0 (raw.data.filter Char.isDigit)⟩ := by
    simp only [format_phone, formatPhoneL, if_neg hne', if_neg h10', if_neg h11',
      if_pos hintl']
  constructor
  · rw [hstep]
    apply String.ext
    simp only [String.data_append, groupedBy4, digitsOf]
    simp [spacedGo_zero_eq_chunks]
  · rw [hstep]
    apply String.ext
    simp only [digitsOf]
    have : ('+' :: spacedGo 0 (raw.data.filter Char.isDigit)).filter Char.isDigit
        = (spacedGo 0 (raw.data.filter Char.isDigit)).filter Char.isDigit := by
      simp [List.filter_cons]
    rw [this, filter_spacedGo _ (fun c hc => List.of_mem_filter hc) 0]

/-- Witness for the amended C5 at the spec's own example
`TEL:+442079460018`. -/
theorem claim_C5_intl_phone_format_witness :
    digitsOf "+442079460018" ≠ "" ∧
    (digitsOf "+442079460018").length ≠ 10 ∧
    ¬((digitsOf "+442079460018").length = 11 ∧
      (digitsOf "+442079460018").data.head? = some '1') ∧
    (hasPlus "+442079460018" = true ∨ 11 < (digitsOf "+442079460018").length) ∧
    (format_phone "+442079460018" = "+" ++ groupedBy4 (digitsOf "+442079460018") ∧
      digitsOf (format_phone "+442079460018") = digitsOf "+442079460018") :=
  ⟨by decide, by decide, by decide, by decide,
   claim_C5_intl_phone_format "+442079460018" (by decide) (by decide) (by decide)
     (by decide)⟩

/-! ## Claim C1: X-SOCIALPROFILE insertion -/

theorem lookupKey_setKey_self (c : Contact) (k v : String) :
    lookupKey (setKey c k v) k = some v := by
  induction c with
  | nil => simp [setKey, lookupKey]
  | cons kv rest ih =>
    by_cases h : kv.1 = k
    · simp [setKey, lookupKey, h]
    · simp [setKey, lookupKey, h, ih]

theorem lookupKey_setKey_ne (c : Contact) (k v k2 : String) (h : k2 ≠ k) :
    lookupKey (setKey c k v) k2 = lookupKey c k2 := by
  induction c with
  | nil =>
    simp only [setKey, lookupKey]
    rw [if_neg (fun he => h he.symm)]
  | cons kv rest ih =>
    by_cases hk : kv.1 = k
    · have hne : ¬ kv.1 = k2 := by rw [hk]; exact fun he => h he.symm
      simp only [setKey, if_pos hk, lookupKey]
      rw [if_neg hne, if_neg hne]
    · simp only [setKey, if_neg hk, lookupKey]
      by_cases h2 : kv.1 = k2
      · rw [if_pos h2, if_pos h2]
      · rw [if_neg h2, if_neg h2]
        exact ih

theorem length_setKey_of_hasKey (c : Contact) (k v : String)
    (h : hasKey c k = true) : (setKey c k v).length = c.length := by
  induction c with
  | nil => simp [hasKey, lookupKey] at h
  | cons kv rest ih =>
    by_cases hk : kv.1 = k
    · simp [setKey, hk]
    · simp only [hasKey, lookupKey, if_neg hk] at h
      simp [setKey, if_neg hk, ih h]

theorem length_setKey_of_not_hasKey (c : Contact) (k v : String)
    (h : hasKey c k = false) : (setKey c k v).length = c.length + 1 := by
  induction c with
  | nil => simp [setKey]
  | cons kv rest ih =>
    by_cases hk : kv.1 = k
    · simp [hasKey, lookupKey, hk] at h
    · simp only [hasKey, lookupKey, if_neg hk] at h
      simp [setKey, if_neg hk, ih h]

/-- Counterexample to C1 as stated: one block with two
`X-SOCIALPROFILE;type=twitter` properties.  Both source properties write
to the key `"Twitter"`; the second assignment overwrites the first, the
value `"u1"` is lost, and no auto-numbered key (`"Twitter 2"`) is
produced, so the collision/auto-numbering rule is not applied to
`X-SOCIALPROFILE` and distinct source properties do end up on one key. -/
theorem claim_C1_counterexample :
    parse_vcf "BEGIN:VCARD\nFN:Ann\nX-SOCIALPROFILE;type=twitter;x-user=u1:a\nX-SOCIALPROFILE;type=twitter;x-user=u2:b\nEND:VCARD"
      = [[("Name", "Ann"), ("Twitter", "u2")]] := by decide

/-- Amended claim C1: an `X-SOCIALPROFILE` property stores the username
extracted from an `X-USER=<name>` parameter (falling back to the raw
value) under the key given by the type label (or `"Social"`) by a plain
dictionary assignment: the key ends up bound to the new display value,
every other key is untouched, and no auto-numbered variant is created;
in particular an existing value under the same key is overwritten, so
two social profiles with the same label do collide. -/
theorem claim_C1_social_assignment (cur : Contact) (propPart value : List Char) :
    lookupKey (handleSocial cur propPart value)
        (pyOrStr (extractTypeL propPart) "Social")
      = some ⟨socialDisplay propPart value⟩ ∧
    (∀ k, k ≠ pyOrStr (extractTypeL propPart) "Social" →
      lookupKey (handleSocial cur propPart value) k = lookupKey cur k) ∧
    (handleSocial cur propPart value).length
      = (if hasKey cur (pyOrStr (extractTypeL propPart) "Social") = true
          then cur.length else cur.length + 1) := by
  refine ⟨lookupKey_setKey_self _ _ _,
    fun k hk => lookupKey_setKey_ne _ _ _ _ hk, ?_⟩
  by_cases h : hasKey cur (pyOrStr (extractTypeL propPart) "Social") = true
  · rw [if_pos h]
    exact length_setKey_of_hasKey _ _ _ h
  · have h' : hasKey cur (pyOrStr (extractTypeL propPart) "Social") = false := by
      simpa using h
    rw [if_neg (by simp [h'])]
    exact length_setKey_of_not_hasKey _ _ _ h'

/-- Witness for the amended C1: assigning a second twitter profile into a
record that already has the `"Twitter"` key overwrites it and leaves
`"Name"` alone. -/
theorem claim_C1_social_assignment_witness :
    lookupKey
        (handleSocial [("Twitter", "u1")]
          "X-SOCIALPROFILE;type=twitter;x-user=u2".data "b".data)
        "Twitter" = some "u2" ∧
    lookupKey
        (handleSocial [("Twitter", "u1")]
          "X-SOCIALPROFILE;type=twitter;x-user=u2".data "b".data)
        "Name" = none := by
  have hk : pyOrStr (extractTypeL "X-SOCIALPROFILE;type=twitter;x-user=u2".data)
      "Social" = "Twitter" := by decide
  have h := claim_C1_social_assignment [("Twitter", "u1")]
    "X-SOCIALPROFILE;type=twitter;x-user=u2".data "b".data
  constructor
  · have h1 := h.1
    rw [hk] at h1
    exact h1.trans (by decide)
  · have h2 := h.2.1 "Name" (by rw [hk]; decide)
    exact h2.trans (by decide)

/-! ## Claim C7: type-label extraction -/

theorem upChar_semicolon : upChar ';' = ';' := rfl

theorem upChar_ne_semicolon (c : Char) (h : c ≠ ';') : upChar c ≠ ';' := by
  unfold upChar
  split
  all_goals first | decide | exact h

theorem splitCL_upper (l : List Char) :
    splitCL ';' (pyUpperL l) = (splitCL ';' l).map pyUpperL := by
  induction l with
  | nil => simp [splitCL, pyUpperL]
  | cons c rest ih =>
    by_cases hc : c = ';'
    · subst hc
      simp only [pyUpperL, List.map_cons, upChar_semicolon] at *
      simp [splitCL, ih, pyUpperL]
    · have hup : upChar c ≠ ';' := upChar_ne_semicolon c hc
      simp only [pyUpperL, List.map_cons] at *
      simp only [splitCL, if_neg hup, if_neg hc]
      rw [ih]
      cases hsp : splitCL ';' rest with
      | nil => simp [pyUpperL]
      | cons h t => simp [pyUpperL]

theorem extractGo_eq_claimGo (ts : List (List Char)) :
    extractTypeGo (ts.map pyUpperL) = claimC7AmendedLabelGo ts := by
  induction ts with
  | nil => rfl
  | cons t ts ih =>
    cases htb : tableLabel (pyStripL (removeTypeEq (pyUpperL t))) with
    | some l =>
      simp [extractTypeGo, claimC7AmendedLabelGo, htb]
    | none =>
      by_cases halpha : pyIsAlpha (pyStripL (removeTypeEq (pyUpperL t))) = true ∧
          pyStripL (removeTypeEq (pyUpperL t)) ∉ noiseWords
      · simp [extractTypeGo, claimC7AmendedLabelGo, htb, halpha]
      · simp [extractTypeGo, claimC7AmendedLabelGo, htb, halpha, ih]

/-- Counterexample to C7 as stated: on the parameter token `ATYPE=B` the
code's `p.replace("TYPE=", "")` removes the INNER occurrence of `TYPE=`,
leaving `AB`, which is alphabetic and is title-cased to `"Ab"`; under the
claim's rule (strip only a leading `TYPE=` prefix) the token keeps its
`=` and yields no label at all. -/
theorem claim_C7_counterexample :
    extract_type "TEL;ATYPE=B" = some "Ab" ∧
    claimC7Label "TEL;ATYPE=B" = none := by
  exact ⟨by decide, by decide⟩

/-- Amended claim C7: type-label extraction scans the parameter tokens
left to right; each token is case-folded to upper case, every occurrence
of the substring `TYPE=` is removed (not only a leading prefix) and
surrounding whitespace is trimmed; the first token that maps to a
fixed-table label (CELL and MOBILE give Cell, HOME Home, WORK Work,
MAIN Main, FAX Fax, IPHONE iPhone, OTHER Other; PREF is suppressed)
returns it; otherwise the first purely alphabetic token not among the
noise words VOICE, INTERNET, PREF, CHARSET=UTF-8 is title-cased and
returned; if no token qualifies, no label is produced.  Formally: the
code's extraction coincides with the claim-side function written from
those words. -/
theorem claim_C7_type_label_extraction (propPart : String) :
    extract_type propPart = claimC7AmendedLabel propPart := by
  unfold extract_type extractTypeL claimC7AmendedLabel
  rw [splitCL_upper]
  rw [← List.map_drop]
  exact extractGo_eq_claimGo _

/-! ## Claim C8: quoted-printable decoding -/

theorem isInfix_of_isPrefix {l1 l2 : List Char} (h : l1 <+: l2) : l1 <:+: l2 := by
  rcases h with ⟨t, ht⟩
  exact ⟨[], t, by simpa using ht⟩

theorem containsSubL_iff (pat l : List Char) :
    containsSubL pat l = true ↔ pat <:+: l := by
  induction l with
  | nil =>
    simp [containsSubL, List.isEmpty_iff, List.infix_nil]
  | cons c rest ih =>
    simp only [containsSubL, Bool.or_eq_true, List.isPrefixOf_iff_prefix, ih,
      List.infix_cons_iff]

theorem splitCL_head_takeWhile (sep : Char) (l : List Char) :
    ∃ t2, splitCL sep l = l.takeWhile (fun x => !(x == sep)) :: t2 := by
  induction l with
  | nil => exact ⟨[], rfl⟩
  | cons c rest ih =>
    by_cases hc : c = sep
    · refine ⟨splitCL sep rest, ?_⟩
      simp [splitCL, hc, List.takeWhile_cons]
    · rcases ih with ⟨t2, ht2⟩
      refine ⟨t2, ?_⟩
      simp only [splitCL, if_neg hc, ht2, List.takeWhile_cons]
      simp [hc]

theorem splitCL_mem_infix (sep : Char) (l : List Char) :
    ∀ t ∈ splitCL sep l, t <:+: l := by
  induction l with
  | nil =>
    intro t ht
    simp only [splitCL, List.mem_singleton] at ht
    subst ht
    exact List.nil_infix
  | cons c rest ih =>
    intro t ht
    by_cases hc : c = sep
    · simp only [splitCL, if_pos hc, List.mem_cons] at ht
      rcases ht with ht | ht
      · subst ht; exact List.nil_infix
      · exact List.infix_cons (ih t ht)
    · rcases splitCL_head_takeWhile sep rest with ⟨t2, ht2⟩
      simp only [splitCL, if_neg hc, ht2, List.mem_cons] at ht
      rcases ht with ht | ht
      · subst ht
        refine isInfix_of_isPrefix ?_
        have hpre : rest.takeWhile (fun x => !(x == sep)) <+: rest :=
          List.takeWhile_prefix _
        rcases hpre with ⟨tt, htt⟩
        exact ⟨tt, by simp [htt]⟩
      · have hmem : t ∈ splitCL sep rest := by rw [ht2]; exact List.mem_cons_of_mem _ ht
        exact List.infix_cons (ih t hmem)

theorem marker_in_params_implies (propPart : List Char)
    (h : paramsContainMarker propPart = true) :
    containsSubL qpMarker (pyUpperL propPart) = true := by
  rw [paramsContainMarker, List.any_eq_true] at h
  rcases h with ⟨p, hp, hcontains⟩
  have hmem : p ∈ splitCL ';' propPart := List.mem_of_mem_drop hp
  have hinf : p <:+: propPart := splitCL_mem_infix ';' propPart p hmem
  have hinf2 : pyUpperL p <:+: pyUpperL propPart := List.IsInfix.map upChar hinf
  rw [containsSubL_iff] at hcontains ⊢
  exact hcontains.trans hinf2

/-- Counterexample to C8 as stated: for the property part
`XENCODING=QUOTED-PRINTABLE` the marker occurs inside the property NAME
token and there are no parameters at all, yet the code's
`"ENCODING=QUOTED-PRINTABLE" in prop_part.upper()` test fires and the
value `=41` is decoded to `A` — decoding happens although no parameter
contains the marker, refuting the claim's "if and only if some
parameter contains" trigger. -/
theorem claim_C8_counterexample :
    containsSubL qpMarker (pyUpperL "XENCODING=QUOTED-PRINTABLE".data) = true ∧
    paramsContainMarker "XENCODING=QUOTED-PRINTABLE".data = false ∧
    processValueL "XENCODING=QUOTED-PRINTABLE".data "=41".data = "A".data :=
  ⟨by decide, by decide, by decide⟩

/-- Amended claim C8: the `=XX` escapes of the value are decoded if and
only if the whole property part before the first colon (property name
and parameters together), uppercased, contains
`ENCODING=QUOTED-PRINTABLE`; since every parameter is part of that
portion, any parameter containing the marker triggers decoding, and the
decoding happens before the escape-unescaping, trimming and
empty-value-discard steps; in particular `Caf=C3=A9` has both `=XX`
escapes decoded (to code points 0xC3 and 0xA9) before storage. -/
theorem claim_C8_qp_decoding :
    (∀ propPart v : List Char, paramsContainMarker propPart = true →
      processValueL propPart v = pyStripL (unescapeL (qpDecodeL v))) ∧
    (∀ propPart v : List Char, containsSubL qpMarker (pyUpperL propPart) = false →
      processValueL propPart v = pyStripL (unescapeL v)) ∧
    qpDecodeL "Caf=C3=A9".data = "Caf".data ++ [Char.ofNat 195, Char.ofNat 169] ∧
    processValueL "NOTE;ENCODING=QUOTED-PRINTABLE".data "Caf=C3=A9".data
      = "Caf".data ++ [Char.ofNat 195, Char.ofNat 169] := by
  refine ⟨?_, ?_, by decide, by decide⟩
  · intro propPart v h
    rw [processValueL, if_pos (marker_in_params_implies propPart h)]
  · intro propPart v h
    rw [processValueL, if_neg (by simp [h])]

/-- Witness for the amended C8: the spec's own quoted-printable NOTE
example; its single parameter contains the marker, so the value is
decoded, then unescaped and trimmed. -/
theorem claim_C8_qp_decoding_witness :
    paramsContainMarker "NOTE;ENCODING=QUOTED-PRINTABLE".data = true ∧
    processValueL "NOTE;ENCODING=QUOTED-PRINTABLE".data "Caf=C3=A9".data
      = pyStripL (unescapeL (qpDecodeL "Caf=C3=A9".data)) :=
  ⟨by decide,
   claim_C8_qp_decoding.1 "NOTE;ENCODING=QUOTED-PRINTABLE".data "Caf=C3=A9".data
     (by decide)⟩

/-! ## Claim C9: line unfolding -/

theorem pass1_cons_ne (c : Char) (rest : List Char) (hc : c ≠ '\r') :
    pass1 (c :: rest) = c :: pass1 rest := by
  rw [pass1.eq_def]
  split
  · rename_i c3 rest3 heq
    exact absurd (by injection heq) hc
  · rename_i c' rest' heq
    injection heq with h1 h2
    rw [h1, h2]
  · rename_i heq
    exact absurd heq (by simp)

theorem pass2_cons_other (c : Char) (rest : List Char)
    (hr : c ≠ '\r') (hn : c ≠ '\n') :
    pass2 (c :: rest) = c :: pass2 rest := by
  rw [pass2.eq_def]
  split
  · rename_i c3 rest3 heq
    exact absurd (by injection heq) hr
  · rename_i c2 rest2 heq
    exact absurd (by injection heq) hn
  · rename_i c' rest' heq
    injection heq with h1 h2
    rw [h1, h2]
  · rename_i heq
    exact absurd heq (by simp)

theorem pass1_of_noCR (l : List Char) (h : '\r' ∉ l) : pass1 l = l := by
  induction l with
  | nil => rfl
  | cons c rest ih =>
    have hc : c ≠ '\r' := fun he => h (he ▸ List.mem_cons_self _ _)
    have hrest : '\r' ∉ rest := fun hm => h (List.mem_cons_of_mem _ hm)
    rw [pass1_cons_ne c rest hc, ih hrest]

theorem pass1_append_of_noCR (l1 rest : List Char) (h : '\r' ∉ l1) :
    pass1 (l1 ++ rest) = l1 ++ pass1 rest := by
  induction l1 with
  | nil => simp
  | cons c t ih =>
    have hc : c ≠ '\r' := fun he => h (he ▸ List.mem_cons_self _ _)
    have ht : '\r' ∉ t := fun hm => h (List.mem_cons_of_mem _ hm)
    simp only [List.cons_append]
    rw [pass1_cons_ne c (t ++ rest) hc, ih ht]

theorem pass2_of_clean (l : List Char) (hr : '\r' ∉ l) (hn : '\n' ∉ l) :
    pass2 l = l := by
  induction l with
  | nil => rfl
  | cons c rest ih =>
    have hc1 : c ≠ '\r' := fun he => hr (he ▸ List.mem_cons_self _ _)
    have hc2 : c ≠ '\n' := fun he => hn (he ▸ List.mem_cons_self _ _)
    have hr' : '\r' ∉ rest := fun hm => hr (List.mem_cons_of_mem _ hm)
    have hn' : '\n' ∉ rest := fun hm => hn (List.mem_cons_of_mem _ hm)
    rw [pass2_cons_other c rest hc1 hc2, ih hr' hn']

/-- Counterexample to C9 as stated: in the raw text `"a\n\r\n  b"` the
first LF is followed by a CR, so under the claimed single-pass rule it
must survive (the claimed result is `"a\n b"`); but the code's first pass
removes the CRLF-plus-space and thereby exposes the LF to the second
space, which the second pass then also removes, giving `"ab"`. -/
theorem claim_C9_counterexample :
    vcfUnfold "a\n\r\n  b" = "ab" ∧
    claimSinglePassUnfold "a\n\r\n  b" = "a\n b" ∧
    vcfUnfold "a\n\r\n  b" ≠ claimSinglePassUnfold "a\n\r\n  b" :=
  ⟨by decide, by decide, by decide⟩

/-- Amended claim C9: unfolding is two successive passes — first every
CRLF immediately followed by a single space or tab is removed together
with that whitespace character, then every CRLF-or-LF immediately
followed by a single space or tab in the INTERMEDIATE result is removed
likewise (so a first-pass removal can expose a newline to whitespace
that the second pass also removes).  On raw text containing no CR the
claimed single pass describes the code exactly; and a property value
split across two physical lines by a CRLF-plus-space fold reassembles
into the unfolded equivalent, so parsing both gives the same result. -/
theorem claim_C9_unfolding :
    (∀ s : String, '\r' ∉ s.data →
      vcfUnfold s = claimSinglePassUnfold s) ∧
    (∀ l1 l2 : List Char, '\r' ∉ l1 → '\n' ∉ l1 → '\r' ∉ l2 → '\n' ∉ l2 →
      vcfUnfoldL (l1 ++ '\r' :: '\n' :: ' ' :: l2) = l1 ++ l2 ∧
      vcfUnfoldL (l1 ++ l2) = l1 ++ l2 ∧
      parse_vcf ⟨l1 ++ '\r' :: '\n' :: ' ' :: l2⟩ = parse_vcf ⟨l1 ++ l2⟩) := by
  constructor
  · intro s h
    show (⟨pass2 (pass1 s.data)⟩ : String) = ⟨pass2 s.data⟩
    rw [pass1_of_noCR s.data h]
  · intro l1 l2 h1r h1n h2r h2n
    have hmid : pass1 ('\r' :: '\n' :: ' ' :: l2) = pass1 l2 := by
      rw [pass1.eq_def]
      simp [isFoldWs]
    have hfold : vcfUnfoldL (l1 ++ '\r' :: '\n' :: ' ' :: l2) = l1 ++ l2 := by
      unfold vcfUnfoldL
      rw [pass1_append_of_noCR l1 _ h1r, hmid, pass1_of_noCR l2 h2r]
      exact pass2_of_clean _ (by simp [h1r, h2r]) (by simp [h1n, h2n])
    have hplain : vcfUnfoldL (l1 ++ l2) = l1 ++ l2 := by
      unfold vcfUnfoldL
      rw [pass1_of_noCR _ (by simp [h1r, h2r])]
      exact pass2_of_clean _ (by simp [h1r, h2r]) (by simp [h1n, h2n])
    refine ⟨hfold, hplain, ?_⟩
    show (((splitLinesL (vcfUnfoldL (l1 ++ '\r' :: '\n' :: ' ' :: l2))).foldl
        stepLine ([], none)).1 : List Contact) = _
    rw [hfold]
    show _ = ((splitLinesL (vcfUnfoldL (l1 ++ l2))).foldl stepLine ([], none)).1
    rw [hplain]

/-- Witness for the amended C9: a folded `NOTE` line; the code unfolds it
to the plain concatenation and parses it identically. -/
theorem claim_C9_unfolding_witness :
    ('\r' ∉ "NOTE:a".data) ∧ ('\n' ∉ "NOTE:a".data) ∧
    ('\r' ∉ "b".data) ∧ ('\n' ∉ "b".data) ∧
    (vcfUnfoldL ("NOTE:a".data ++ '\r' :: '\n' :: ' ' :: "b".data)
        = "NOTE:a".data ++ "b".data ∧
      vcfUnfoldL ("NOTE:a".data ++ "b".data) = "NOTE:a".data ++ "b".data ∧
      parse_vcf ⟨"NOTE:a".data ++ '\r' :: '\n' :: ' ' :: "b".data⟩
        = parse_vcf ⟨"NOTE:a".data ++ "b".data⟩) :=
  ⟨by decide, by decide, by decide, by decide,
   claim_C9_unfolding.2 "NOTE:a".data "b".data
     (by decide) (by decide) (by decide) (by decide)⟩

/-! ## Claim C6: record emission at END:VCARD -/

theorem lookupKey_append_single_ne (c : Contact) (key v k : String) (h : key ≠ k) :
    lookupKey (c ++ [(key, v)]) k = lookupKey c k := by
  induction c with
  | nil => simp [lookupKey, h]
  | cons kv rest ih =>
    by_cases hk : kv.1 = k
    · simp [lookupKey, hk]
    · simp [lookupKey, hk, ih]

theorem strAppend_assoc (a b c : String) : a ++ b ++ c = a ++ (b ++ c) := by
  apply String.ext
  simp [String.data_append]

theorem base_append_ne_name (base s : String) (c0 : Char)
    (hc : base.data.head? = some c0) (hcn : c0 ≠ 'N') : base ++ s ≠ "Name" := by
  intro h
  have h2 : (base ++ s).data = "Name".data := congrArg String.data h
  rw [String.data_append] at h2
  cases hbd : base.data with
  | nil => rw [hbd] at hc; simp at hc
  | cons c t =>
    rw [hbd] at hc h2
    simp only [List.head?_cons, Option.some.injEq] at hc
    rw [show "Name".data = ['N', 'a', 'm', 'e'] from rfl] at h2
    simp only [List.cons_append] at h2
    injection h2 with hh _
    exact hcn (hc ▸ hh)

theorem lookupKey_addField_name (c : Contact) (base v : String) (lbl : Option String)
    (hb : ∀ s : String, base ++ s ≠ "Name") :
    lookupKey (addField c base v lbl) "Name" = lookupKey c "Name" := by
  rcases addField_shape c base v lbl with h1 | ⟨key, _, hkey, heq⟩
  · rw [h1]
  · rw [heq]
    have hkeyne : key ≠ "Name" := by
      rcases hkey with hk1 | ⟨n, _, hk2⟩
      · rw [hk1]; exact hb _
      · rw [hk2]
        unfold numberedKey
        rw [strAppend_assoc, strAppend_assoc]
        exact hb _
    exact lookupKey_append_single_ne c key v "Name" hkeyne

theorem handleLine_preserves_name (cur : Contact) (line : List Char)
    (hfn : propNameOfLine line ≠ "FN")
    (hsp : propNameOfLine line ≠ "X-SOCIALPROFILE") :
    lookupKey (handleLine cur line) "Name" = lookupKey cur "Name" := by
  unfold handleLine
  by_cases hcolon : ¬ line.contains ':' = true
  · rw [if_pos hcolon]
  · rw [if_neg hcolon]
    simp only
    by_cases hval : processValueL (splitOnceL ':' line).1 (splitOnceL ':' line).2 = []
    · rw [if_pos hval]
    · rw [if_neg hval, if_neg hfn]
      by_cases h1 : propNameOfLine line = "TEL"
      · rw [if_pos h1]
        exact lookupKey_addField_name _ _ _ _
          (fun s => base_append_ne_name "Phone" s 'P' rfl (by decide))
      rw [if_neg h1]
      by_cases h2 : propNameOfLine line = "EMAIL"
      · rw [if_pos h2]
        exact lookupKey_addField_name _ _ _ _
          (fun s => base_append_ne_name "Email" s 'E' rfl (by decide))
      rw [if_neg h2]
      by_cases h3 : propNameOfLine line = "ORG"
      · rw [if_pos h3]
        exact lookupKey_setKey_ne _ _ _ _ (by decide)
      rw [if_neg h3]
      by_cases h4 : propNameOfLine line = "TITLE"
      · rw [if_pos h4]
        exact lookupKey_setKey_ne _ _ _ _ (by decide)
      rw [if_neg h4]
      by_cases h5 : propNameOfLine line = "NOTE"
      · rw [if_pos h5]
        exact lookupKey_setKey_ne _ _ _ _ (by decide)
      rw [if_neg h5]
      by_cases h6 : propNameOfLine line = "ADR"
      · rw [if_pos h6]
        by_cases hparts : (((splitCL ';'
            (processValueL (splitOnceL ':' line).1 (splitOnceL ':' line).2)).map
              pyStripL).filter (· ≠ [])) ≠ []
        · rw [if_pos hparts]
          exact lookupKey_addField_name _ _ _ _
            (fun s => base_append_ne_name "Address" s 'A' rfl (by decide))
        · rw [if_neg hparts]
      rw [if_neg h6]
      by_cases h7 : propNameOfLine line = "URL"
      · rw [if_pos h7]
        exact lookupKey_addField_name _ _ _ _
          (fun s => base_append_ne_name "Website" s 'W' rfl (by decide))
      rw [if_neg h7, if_neg hsp]

theorem stepLine_end (cs : List Contact) (cur : Contact) (line : List Char)
    (h : pyUpperL (pyStripL line) = "END:VCARD".data) :
    stepLine (cs, some cur) line
      = (cs ++ (if nameVal cur ≠ "" then [cur] else []), none) := by
  have hne : pyStripL line ≠ [] := by
    intro he; rw [he] at h; exact absurd h (by decide)
  have hnb : ¬ pyUpperL (pyStripL line) = "BEGIN:VCARD".data := by
    rw [h]; decide
  unfold stepLine
  rw [if_neg hne, if_neg hnb, if_pos h]
  simp only
  by_cases hn : nameVal cur ≠ ""
  · have hc : cur ≠ [] := by
      intro he; subst he; exact hn rfl
    rw [if_pos ⟨hc, hn⟩, if_pos hn]
  · rw [if_neg (fun hand => hn hand.2), if_neg hn]
    simp

theorem stepLine_end_none (cs : List Contact) (line : List Char)
    (h : pyUpperL (pyStripL line) = "END:VCARD".data) :
    stepLine (cs, none) line = (cs, none) := by
  have hne : pyStripL line ≠ [] := by
    intro he; rw [he] at h; exact absurd h (by decide)
  have hnb : ¬ pyUpperL (pyStripL line) = "BEGIN:VCARD".data := by
    rw [h]; decide
  unfold stepLine
  rw [if_neg hne, if_neg hnb, if_pos h]

theorem stepLine_fst_of_not_end (st : ParseState) (line : List Char)
    (h : pyUpperL (pyStripL line) ≠ "END:VCARD".data) :
    (stepLine st line).1 = st.1 := by
  unfold stepLine
  by_cases h0 : pyStripL line = []
  · rw [if_pos h0]
  · rw [if_neg h0]
    by_cases hb : pyUpperL (pyStripL line) = "BEGIN:VCARD".data
    · rw [if_pos hb]
    · rw [if_neg hb, if_neg h]
      cases st.2 with
      | none => rfl
      | some cur => rfl

theorem foldl_name_invariant (lines : List (List Char)) :
    ∀ st : ParseState, (∀ c ∈ st.1, nameVal c ≠ "") →
      ∀ c ∈ (lines.foldl stepLine st).1, nameVal c ≠ "" := by
  induction lines with
  | nil => intro st h c hc; exact h c hc
  | cons l ls ih =>
    intro st h
    rw [List.foldl_cons]
    apply ih
    intro c hc
    by_cases hend : pyUpperL (pyStripL l) = "END:VCARD".data
    · rcases st with ⟨cs, ocur⟩
      cases ocur with
      | none =>
        rw [stepLine_end_none cs l hend] at hc
        exact h c hc
      | some cur =>
        rw [stepLine_end cs cur l hend] at hc
        simp only [List.mem_append] at hc
        rcases hc with hc | hc
        · exact h c hc
        · by_cases hn : nameVal cur ≠ ""
          · rw [if_pos hn] at hc
            simp only [List.mem_singleton] at hc
            subst hc
            exact hn
          · rw [if_neg hn] at hc
            simp at hc
    · rw [stepLine_fst_of_not_end st l hend] at hc
      exact h c hc

/-- Counterexample to C6 as stated: a block with NO `FN` property whose
`X-SOCIALPROFILE;type=name` parameter makes the social-profile branch
assign the key `"Name"` directly, so the block emits a record although it
has no FN. -/
theorem claim_C6_counterexample :
    parse_vcf "BEGIN:VCARD\nX-SOCIALPROFILE;type=name;x-user=Zed:https://z.example\nEND:VCARD"
      = [[("Name", "Zed")]] := by decide

/-- Amended claim C6: a ContactRecord is appended to the output exactly
when an `END:VCARD` line is reached while the open record's `Name` value
is non-empty (so every emitted record has a non-empty Name, and an
unfinished or Name-less block contributes nothing and raises no error);
no other line ever appends a record; and a property line whose name is
neither `FN` nor `X-SOCIALPROFILE` cannot change the `Name` value, so a
block with no FN emits no record UNLESS an `X-SOCIALPROFILE` whose
derived platform label is `"Name"` sets it. -/
theorem claim_C6_record_emission :
    (∀ (text : String) (c : Contact), c ∈ parse_vcf text →
      ∃ v, lookupKey c "Name" = some v ∧ v ≠ "") ∧
    (∀ (cs : List Contact) (cur : Contact) (line : List Char),
      pyUpperL (pyStripL line) = "END:VCARD".data →
      stepLine (cs, some cur) line
        = (cs ++ (if nameVal cur ≠ "" then [cur] else []), none)) ∧
    (∀ (st : ParseState) (line : List Char),
      pyUpperL (pyStripL line) ≠ "END:VCARD".data →
      (stepLine st line).1 = st.1) ∧
    (∀ (cs : List Contact) (cur : Contact) (line : List Char),
      pyStripL line ≠ [] →
      pyUpperL (pyStripL line) ≠ "BEGIN:VCARD".data →
      pyUpperL (pyStripL line) ≠ "END:VCARD".data →
      propNameOfLine (pyStripL line) ≠ "FN" →
      propNameOfLine (pyStripL line) ≠ "X-SOCIALPROFILE" →
      stepLine (cs, some cur) line = (cs, some (handleLine cur (pyStripL line))) ∧
      lookupKey (handleLine cur (pyStripL line)) "Name" = lookupKey cur "Name") := by
  refine ⟨?_, stepLine_end, stepLine_fst_of_not_end, ?_⟩
  · intro text c hc
    have hname : nameVal c ≠ "" := by
      refine foldl_name_invariant (splitLinesL (vcfUnfoldL text.data))
        ([], none) (by simp) c ?_
      exact hc
    cases hlk : lookupKey c "Name" with
    | none =>
      exfalso
      apply hname
      simp [nameVal, hlk]
    | some v =>
      refine ⟨v, rfl, ?_⟩
      intro hv
      apply hname
      simp [nameVal, hlk, hv]
  · intro cs cur line h0 hb he hfn hsp
    constructor
    · unfold stepLine
      rw [if_neg h0, if_neg hb, if_neg he]
    · exact handleLine_preserves_name cur (pyStripL line) hfn hsp

/-- Witness for the amended C6: an `END:VCARD` line with a named open
record appends exactly that record, and a `TEL` line cannot create a
`Name`. -/
theorem claim_C6_record_emission_witness :
    pyUpperL (pyStripL "end:vcard".data) = "END:VCARD".data ∧
    stepLine ([], some [("Name", "Jo")]) "end:vcard".data
      = ([] ++ (if nameVal [("Name", "Jo")] ≠ "" then [[("Name", "Jo")]] else []),
         none) ∧
    lookupKey (handleLine [] (pyStripL "TEL:5551234567".data)) "Name"
      = lookupKey [] "Name" :=
  ⟨by decide,
   claim_C6_record_emission.2.1 [] [("Name", "Jo")] "end:vcard".data (by decide),
   (claim_C6_record_emission.2.2.2 [] [] "TEL:5551234567".data (by decide)
     (by decide) (by decide) (by decide) (by decide)).2⟩

/-! ## Claim C10: BEGIN:VCARD while a record is open -/

/-- Claim C10: a `BEGIN:VCARD` line (matched case-insensitively on the
stripped line) encountered while a record is under construction discards
all accumulated fields, starts a fresh empty record, and leaves the
output sequence unchanged; concretely, an interrupted block contributes
no record. -/
theorem claim_C10_begin_resets :
    (∀ (cs : List Contact) (cur : Contact) (line : List Char),
      pyUpperL (pyStripL line) = "BEGIN:VCARD".data →
      stepLine (cs, some cur) line = (cs, some [])) ∧
    parse_vcf "BEGIN:VCARD\r\nFN:Lost\r\nTEL:123\r\nBEGIN:VCARD\r\nFN:Kept\r\nEND:VCARD\r\n"
      = [[("Name", "Kept")]] := by
  refine ⟨?_, by decide⟩
  intro cs cur line h
  have hne : pyStripL line ≠ [] := by
    intro he
    rw [he] at h
    exact absurd h (by decide)
  simp [stepLine, hne, h]

/-- Witness for C10: a lower-case, whitespace-padded BEGIN line resets a
non-empty record under construction. -/
theorem claim_C10_begin_resets_witness :
    pyUpperL (pyStripL " Begin:vcard ".data) = "BEGIN:VCARD".data ∧
    stepLine ([], some [("Name", "Lost")]) " Begin:vcard ".data = ([], some []) :=
  ⟨by decide, claim_C10_begin_resets.1 [] [("Name", "Lost")] _ (by decide)⟩

end VcfCore
